import Mathlib

/-!
Verification of the venue-tracks extraction core (metadata parsing, device
discovery, channel-name normalization) against its specification.

The Hardware enumeration is embedded from `src/venue/hardware/hardware.go`.
The extraction functions themselves (`CleanName`, `parseMetadata`,
`discoverDevices`) are not present under `src/` (only their tests and the
hardware constants are), so they are modelled from the specification, and
checked against the behaviour the tests in `src/venue/venue_test.go` expect.

Strings are treated as their character lists (`String.data`) where
character-level reasoning is needed.
-/

/-- Embedded from src/venue/hardware/hardware.go: `type Hardware int` with
constants `StageBox`, `Local`, `ProTools` declared via `iota` (hence the
ordinal codes 0, 1, 2). A closed three-value enumeration. -/
inductive Hardware : Type
  | StageBox : Hardware
  | Local : Hardware
  | ProTools : Hardware
deriving DecidableEq

/-- Embedded from src/venue/hardware/hardware.go: the `iota` ordinal value of
each constant (`StageBox=0, Local=1, ProTools=2`). -/
def Hardware.code : Hardware → Nat
  | Hardware.StageBox => 0
  | Hardware.Local => 1
  | Hardware.ProTools => 2

/-- Modelled from the spec: the error taxonomy of section 7 — the Go error
types `MissingFieldError`, `MalformedTableError`, `UnknownDeviceTypeError`
of the missing venue implementation file, each carrying enough context
(device/field name) to diagnose. -/
inductive ParseError : Type
  | missingField : String → ParseError
  | malformedTable : String → ParseError
  | unknownDeviceType : String → ParseError
deriving DecidableEq

/-- Modelled from the spec: a `Device` record — `name` (registry key),
`type` (Hardware class), and the non-negative input/output channel counts. -/
structure Device : Type where
  name : String
  type : Hardware
  numInputs : Nat
  numOutputs : Nat
deriving DecidableEq

/-- Modelled from the spec: the `Venue` aggregate root — `console`, `version`
and the show path (Go field `show`, renamed here because `show` is a Lean
keyword), plus the attached device registry. -/
structure Venue : Type where
  console : String
  version : String
  showPath : String
  devices : List (String × Device)
deriving DecidableEq

/-- Modelled from the spec: the explicit constructor yielding an empty
`Venue` instance (Go `NewVenue()`). -/
def NewVenue : Venue := Venue.mk "" "" "" []

/-- Modelled from the spec: a `Channel` holds the raw label as it appears in
the document; its clean name is a derived view, not a stored field. -/
structure Channel : Type where
  name : String
deriving DecidableEq

/-- Modelled from the spec: one device block of a report document — an
optionally resolvable display name, and the rows of its input and output
channel tables (`none` standing for a malformed, uncountable table). -/
structure DeviceBlock : Type where
  name : Option String
  inputTable : Option (List String)
  outputTable : Option (List String)
deriving DecidableEq

/-- Modelled from the spec: the abstraction of a loaded report document that
the extraction core consumes through the document query capability — the
optionally present console, version and show text nodes, and the device
blocks in document order. -/
structure Document : Type where
  consoleText : Option String
  versionText : Option String
  showText : Option String
  blocks : List DeviceBlock
deriving DecidableEq

/-- Split a character list on every occurrence of the two-character
separator `", "` (comma, space), scanning left to right. -/
def splitCS : List Char → List (List Char)
  | [] => [[]]
  | [c] => [[c]]
  | c :: c2 :: rest =>
    if c = ',' ∧ c2 = ' ' then
      [] :: splitCS rest
    else
      match splitCS (c2 :: rest) with
      | [] => [[c]]
      | t :: ts => (c :: t) :: ts

/-- True when the character list contains no occurrence of the separator
`", "` (comma, space). -/
def sepFree : List Char → Bool
  | [] => true
  | [_] => true
  | c :: c2 :: rest => !(c = ',' && c2 = ' ') && sepFree (c2 :: rest)

/-- Modelled from the spec: the stereo-pair test of the channel-name rule —
the first token ends in `-L`, the second in `-R`, and the bases (the tokens
with that two-character suffix removed) coincide. -/
def stereoPair (a b : List Char) : Bool :=
  a.reverse.take 2 = ['L', '-'] && b.reverse.take 2 = ['R', '-'] &&
    a.reverse.drop 2 = b.reverse.drop 2

/-- Modelled from the spec: the channel-name normalization rule on character
lists — exactly two `", "`-separated tokens forming a stereo pair collapse
to the shared base; anything else is returned unchanged. -/
def cleanList (x : List Char) : List Char :=
  match splitCS x with
  | [a, b] => if stereoPair a b then (a.reverse.drop 2).reverse else x
  | _ => x

/-- Modelled from the spec: `CleanName(rawName) -> string`, the pure
channel-name normalizer (Go method `Channel.CleanName` of the missing
venue implementation file). -/
def CleanName (s : String) : String := String.mk (cleanList s.data)

/-- The clean name of a channel, derived from its raw label. -/
def Channel.CleanName (ch : Channel) : String := String.mk (cleanList ch.name.data)

/-- True when the first list is an initial segment of the second. -/
def startsWith : List Char → List Char → Bool
  | [], _ => true
  | _ :: _, [] => false
  | p :: ps, c :: cs => p = c && startsWith ps cs

/-- True when the pattern occurs as a contiguous run inside the list. -/
def containsSeq (pat : List Char) : List Char → Bool
  | [] => pat.isEmpty
  | c :: rest => startsWith pat (c :: rest) || containsSeq pat rest

/-- The characters of the literal `"Stage "` heading a stage-box name. -/
def stageHeadChars : List Char := ['S', 't', 'a', 'g', 'e', ' ']

/-- The characters of the literal `"Pro Tools"`. -/
def proToolsChars : List Char := ['P', 'r', 'o', ' ', 'T', 'o', 'o', 'l', 's']

/-- Modelled from the spec: a name matches the `"Stage N"` numbering pattern
when it is the literal `"Stage "` followed by a nonempty run of digits. -/
def isStageName (s : String) : Bool :=
  startsWith stageHeadChars s.data && !(s.data.drop 6).isEmpty &&
    (s.data.drop 6).all Char.isDigit

/-- Modelled from the spec: hardware classification of a device name — a
`"Stage N"` name is a `StageBox`; `"Console"`, `"Local"` and `"Engine"` are
`Local`; a name containing `"Pro Tools"` is `ProTools`; any other name is an
`UnknownDeviceTypeError`, never a silently defaulted type. -/
def deviceType (nm : String) : Except ParseError Hardware :=
  if isStageName nm then Except.ok Hardware.StageBox
  else if nm = "Console" ∨ nm = "Local" ∨ nm = "Engine" then Except.ok Hardware.Local
  else if containsSeq proToolsChars nm.data then Except.ok Hardware.ProTools
  else Except.error (ParseError.unknownDeviceType nm)

/-- Modelled from the spec: fetch a required metadata text node — an absent
node or empty text is a `MissingFieldError` naming the field. -/
def requireField (fld : String) (v : Option String) : Except ParseError String :=
  match v with
  | none => Except.error (ParseError.missingField fld)
  | some s => if s = "" then Except.error (ParseError.missingField fld) else Except.ok s

/-- Modelled from the spec: `parseMetadata(document)` — locates the console,
version and show texts and populates the three string fields of the Venue
aggregate; fails fast with an error if any required node is absent or its
text is empty, with no partial population (the devices field is untouched). -/
def parseMetadata (v : Venue) (d : Document) : Except ParseError Venue :=
  match requireField "console" d.consoleText, requireField "version" d.versionText,
      requireField "show" d.showText with
  | Except.ok c, Except.ok ver, Except.ok s => Except.ok (Venue.mk c ver s v.devices)
  | Except.error e, _, _ => Except.error e
  | _, Except.error e, _ => Except.error e
  | _, _, Except.error e => Except.error e

/-- The venue as the caller observes it after a `parseMetadata` call: the
parsed result on success, the venue unchanged on error (the spec's in-place
mutation happens only when the parse succeeds). -/
def applyParseMetadata (v : Venue) (d : Document) : Venue :=
  match parseMetadata v d with
  | Except.ok w => w
  | Except.error _ => v

/-- Modelled from the spec: turn one device block into a `Device` — an
unresolvable name, a classification failure, or a malformed channel table
each yields the corresponding descriptive error; otherwise the channel
counts are the row counts of the two tables. -/
def parseDevice (b : DeviceBlock) : Except ParseError Device :=
  match b.name with
  | none => Except.error (ParseError.missingField "device name")
  | some nm =>
    match deviceType nm with
    | Except.error e => Except.error e
    | Except.ok ty =>
      match b.inputTable, b.outputTable with
      | some ins, some outs => Except.ok (Device.mk nm ty ins.length outs.length)
      | _, _ => Except.error (ParseError.malformedTable nm)

/-- Modelled from the spec: fold the device blocks in document order into a
registry keyed by the device name, aborting the whole pass on the first
error. -/
def discoverBlocks : List DeviceBlock → Except ParseError (List (String × Device))
  | [] => Except.ok []
  | b :: bs =>
    match parseDevice b with
    | Except.error e => Except.error e
    | Except.ok dev =>
      match discoverBlocks bs with
      | Except.error e => Except.error e
      | Except.ok reg => Except.ok ((dev.name, dev) :: reg)

/-- Modelled from the spec: `discoverDevices(document) -> Device Registry |
error` — one registry entry per device block, or a descriptive error for the
whole document with no partial registry. -/
def discoverDevices (d : Document) : Except ParseError (List (String × Device)) :=
  discoverBlocks d.blocks

/-- Registry lookup by device name, mirroring the Go map access `devs[dn]`
of the tests: `none` for an absent key. -/
def findDevice (reg : List (String × Device)) (nm : String) : Option Device :=
  match reg with
  | [] => none
  | (k, dev) :: rest => if k = nm then some dev else findDevice rest nm

/-- The end-to-end example document of the spec (section 8): console text
"Avid VENUE", version "VENUE 4.5.3", show path "ICF Zurich\20170526 Conf WN",
with devices Console (4 in/4 out), Engine (11 in/10 out), Pro Tools
(64 in/64 out) and Stage 1..4 (16 in/12 out each). -/
def exampleDoc : Document :=
  Document.mk (some "Avid VENUE") (some "VENUE 4.5.3")
    (some "ICF Zurich\\20170526 Conf WN")
    [DeviceBlock.mk (some "Console") (some (List.replicate 4 "row")) (some (List.replicate 4 "row")),
     DeviceBlock.mk (some "Engine") (some (List.replicate 11 "row")) (some (List.replicate 10 "row")),
     DeviceBlock.mk (some "Pro Tools") (some (List.replicate 64 "row")) (some (List.replicate 64 "row")),
     DeviceBlock.mk (some "Stage 1") (some (List.replicate 16 "row")) (some (List.replicate 12 "row")),
     DeviceBlock.mk (some "Stage 2") (some (List.replicate 16 "row")) (some (List.replicate 12 "row")),
     DeviceBlock.mk (some "Stage 3") (some (List.replicate 16 "row")) (some (List.replicate 12 "row")),
     DeviceBlock.mk (some "Stage 4") (some (List.replicate 16 "row")) (some (List.replicate 12 "row"))]

/-- The registry that device discovery produces on `exampleDoc`. -/
def exampleRegistry : List (String × Device) :=
  [("Console", Device.mk "Console" Hardware.Local 4 4),
   ("Engine", Device.mk "Engine" Hardware.Local 11 10),
   ("Pro Tools", Device.mk "Pro Tools" Hardware.ProTools 64 64),
   ("Stage 1", Device.mk "Stage 1" Hardware.StageBox 16 12),
   ("Stage 2", Device.mk "Stage 2" Hardware.StageBox 16 12),
   ("Stage 3", Device.mk "Stage 3" Hardware.StageBox 16 12),
   ("Stage 4", Device.mk "Stage 4" Hardware.StageBox 16 12)]

/-- A document whose second device block has a malformed input table, used to
exercise the error paths. -/
def badTableDoc : Document :=
  Document.mk (some "Avid VENUE") (some "VENUE 4.5.3") (some "GenX\\2017_09_10PM")
    [DeviceBlock.mk (some "Stage 1") (some (List.replicate 48 "row")) (some (List.replicate 48 "row")),
     DeviceBlock.mk (some "Pro Tools") none (some (List.replicate 32 "row"))]

/-- A document with its version text node absent, used to exercise the
metadata error path. -/
def noVersionDoc : Document :=
  Document.mk (some "Avid VENUE") none (some "GenX\\2017_09_10PM") []

/-- `splitCS` always yields at least one token. -/
theorem splitCS_ne_nil (x : List Char) : splitCS x ≠ [] := by
  induction x using splitCS.induct with
  | case1 => simp [splitCS]
  | case2 c => simp [splitCS]
  | case3 c c2 rest h ih => simp [splitCS, h]
  | case4 c c2 rest h hs => simp [splitCS, if_neg h, hs]
  | case5 c c2 rest h t ts hs ih => simp [splitCS, if_neg h, hs]

/-- The first token of `splitCS` is an initial segment of the input. -/
theorem splitCS_head_first (x t : List Char) (ts : List (List Char))
    (h : splitCS x = t :: ts) : ∃ r, x = t ++ r := by
  induction x using splitCS.induct generalizing t ts with
  | case1 =>
    simp [splitCS] at h
    exact ⟨[], by simp [h.1]⟩
  | case2 c =>
    simp [splitCS] at h
    exact ⟨[], by simp [h.1]⟩
  | case3 c c2 rest hc ih =>
    simp [splitCS, hc.1, hc.2] at h
    exact ⟨',' :: ' ' :: rest, by simp [← h.1, hc.1, hc.2]⟩
  | case4 c c2 rest hc hs => exact absurd hs (splitCS_ne_nil _)
  | case5 c c2 rest hc t0 ts0 hs ih =>
    rw [splitCS] at h
    rw [if_neg hc, hs] at h
    cases h
    obtain ⟨r, hr⟩ := ih t0 ts0 hs
    exact ⟨r, by rw [List.cons_append, ← hr]⟩

/-- Every token produced by `splitCS` is free of the separator. -/
theorem splitCS_sepFree (x : List Char) (t : List Char) (h : t ∈ splitCS x) :
    sepFree t = true := by
  induction x using splitCS.induct generalizing t with
  | case1 => simp [splitCS] at h; simp [h, sepFree]
  | case2 c => simp [splitCS] at h; simp [h, sepFree]
  | case3 c c2 rest hc ih =>
    rw [splitCS, if_pos hc] at h
    rcases List.mem_cons.mp h with h | h
    · simp [h, sepFree]
    · exact ih t h
  | case4 c c2 rest hc hs => exact absurd hs (splitCS_ne_nil _)
  | case5 c c2 rest hc t0 ts0 hs ih =>
    rw [splitCS, if_neg hc, hs] at h
    rcases List.mem_cons.mp h with h | h
    · subst h
      cases ht0 : t0 with
      | nil => simp [sepFree]
      | cons d t0' =>
        obtain ⟨r, hr⟩ := splitCS_head_first (c2 :: rest) t0 ts0 hs
        rw [ht0] at hr
        have hd : d = c2 := by
          have := hr
          simp [List.cons_append] at this
          exact this.1.symm
        subst hd
        have hsf : sepFree t0 = true := ih t0 (by rw [hs]; exact List.mem_cons_self _ _)
        rw [ht0] at hsf
        simp only [sepFree, Bool.and_eq_true, Bool.not_eq_true']
        constructor
        · by_contra hcc
          simp only [Bool.not_eq_false, Bool.and_eq_true, decide_eq_true_eq] at hcc
          exact hc ⟨hcc.1, hcc.2⟩
        · exact hsf
    · exact ih t (by rw [hs]; exact List.mem_cons_of_mem _ h)

/-- A separator-free list stays separator-free when a tail is cut off. -/
theorem sepFree_append_left (u v : List Char) (h : sepFree (u ++ v) = true) :
    sepFree u = true := by
  induction u with
  | nil => simp [sepFree]
  | cons c u' ih =>
    cases u' with
    | nil => simp [sepFree]
    | cons c2 u'' =>
      simp only [List.cons_append, sepFree, Bool.and_eq_true] at h ⊢
      exact ⟨h.1, ih h.2⟩

/-- A separator-free list is its own single token. -/
theorem splitCS_of_sepFree (x : List Char) (h : sepFree x = true) : splitCS x = [x] := by
  induction x using splitCS.induct with
  | case1 => simp [splitCS]
  | case2 c => simp [splitCS]
  | case3 c c2 rest hc ih =>
    exfalso
    simp [sepFree, hc.1, hc.2] at h
  | case4 c c2 rest hc hs =>
    exact absurd hs (splitCS_ne_nil _)
  | case5 c c2 rest hc t ts hs ih =>
    simp only [sepFree, Bool.and_eq_true] at h
    rw [ih h.2] at hs
    cases hs
    simp [splitCS, if_neg hc, ih h.2]

/-- `cleanList` leaves a separator-free list unchanged. -/
theorem cleanList_sepFree (b : List Char) (h : sepFree b = true) : cleanList b = b := by
  simp [cleanList, splitCS_of_sepFree b h]

/-- Normalization of a character-list channel name is idempotent. -/
theorem cleanList_idem (x : List Char) : cleanList (cleanList x) = cleanList x := by
  rcases hsp : splitCS x with _ | ⟨a, _ | ⟨b, _ | ⟨c, ts⟩⟩⟩
  · simp [cleanList, hsp]
  · simp [cleanList, hsp]
  · by_cases hst : stereoPair a b = true
    · have hres : cleanList x = (a.reverse.drop 2).reverse := by
        simp [cleanList, hsp, hst]
      rw [hres]
      have hsf : sepFree a = true :=
        splitCS_sepFree x a (by rw [hsp]; exact List.mem_cons_self _ _)
      have htk : a.reverse.take 2 = ['L', '-'] := by
        simp only [stereoPair, Bool.and_eq_true, decide_eq_true_eq] at hst
        exact hst.1.1
      have ha : a = (a.reverse.drop 2).reverse ++ ['-', 'L'] := by
        conv_lhs => rw [← List.reverse_reverse a, ← List.take_append_drop 2 a.reverse]
        rw [htk]
        simp
      have hsfb : sepFree (a.reverse.drop 2).reverse = true :=
        sepFree_append_left _ ['-', 'L'] (by rw [← ha]; exact hsf)
      exact cleanList_sepFree _ hsfb
    · simp [cleanList, hsp, hst]
  · simp [cleanList, hsp]

/-- Every character of an initial segment is a character of the list. -/
theorem startsWith_mem (p l : List Char) (h : startsWith p l = true) :
    ∀ c ∈ p, c ∈ l := by
  induction p generalizing l with
  | nil => intro c hc; exact absurd hc (List.not_mem_nil c)
  | cons q ps ih =>
    cases l with
    | nil => simp [startsWith] at h
    | cons d ls =>
      simp only [startsWith, Bool.and_eq_true, decide_eq_true_eq] at h
      intro c hc
      rcases List.mem_cons.mp hc with hc | hc
      · subst hc; rw [h.1]; exact List.mem_cons_self _ _
      · exact List.mem_cons_of_mem _ (ih ls h.2 c hc)

/-- An initial segment decomposes the list into itself and the dropped tail. -/
theorem startsWith_decomp (p l : List Char) (h : startsWith p l = true) :
    l = p ++ l.drop p.length := by
  induction p generalizing l with
  | nil => simp
  | cons q ps ih =>
    cases l with
    | nil => simp [startsWith] at h
    | cons d ls =>
      simp only [startsWith, Bool.and_eq_true, decide_eq_true_eq] at h
      simp only [List.length_cons, List.drop_succ_cons, List.cons_append, h.1.symm]
      exact congrArg (List.cons q) (ih ls h.2)

/-- Every character of a contained run is a character of the list. -/
theorem containsSeq_mem (pat l : List Char) (h : containsSeq pat l = true) :
    ∀ c ∈ pat, c ∈ l := by
  induction l with
  | nil =>
    simp only [containsSeq, List.isEmpty_iff] at h
    subst h
    intro c hc
    exact absurd hc (List.not_mem_nil c)
  | cons d ls ih =>
    simp only [containsSeq, Bool.or_eq_true] at h
    rcases h with h | h
    · exact startsWith_mem pat (d :: ls) h
    · intro c hc
      exact List.mem_cons_of_mem _ (ih h c hc)

/-- A name of the `"Stage N"` numbering pattern never contains `"Pro Tools"`. -/
theorem stage_no_proTools (s : String) (h : isStageName s = true) :
    containsSeq proToolsChars s.data = false := by
  by_contra hcc
  rw [Bool.not_eq_false] at hcc
  have hP : ('P' : Char) ∈ s.data :=
    containsSeq_mem proToolsChars s.data hcc 'P' (by decide)
  simp only [isStageName, Bool.and_eq_true] at h
  have hdec := startsWith_decomp stageHeadChars s.data h.1.1
  rw [show stageHeadChars.length = 6 from rfl] at hdec
  rw [hdec] at hP
  rcases List.mem_append.mp hP with hP | hP
  · revert hP; decide
  · have := List.all_eq_true.mp h.2 'P' hP
    revert this; decide

/-- An absent metadata node is a missing-field error. -/
theorem requireField_none (fld : String) :
    requireField fld none = Except.error (ParseError.missingField fld) := rfl

/-- An empty metadata text is a missing-field error. -/
theorem requireField_empty (fld : String) :
    requireField fld (some "") = Except.error (ParseError.missingField fld) := by
  simp [requireField]

/-- A present, nonempty metadata text is returned as is. -/
theorem requireField_some (fld s : String) (h : s ≠ "") :
    requireField fld (some s) = Except.ok s := by
  simp [requireField, h]

/-- `requireField` either returns the text or a missing-field error for the
requested field. -/
theorem requireField_cases (fld : String) (o : Option String) :
    (∃ s, requireField fld o = Except.ok s) ∨
      requireField fld o = Except.error (ParseError.missingField fld) := by
  rcases o with _ | s
  · exact Or.inr rfl
  · by_cases h : s = ""
    · subst h; exact Or.inr (requireField_empty fld)
    · exact Or.inl ⟨s, requireField_some fld s h⟩

/-- A well-formed block list is discovered in full: the registry keys are the
block names in document order, and every block contributes the device built
from its name, classified type and table row counts. -/
theorem discoverBlocks_complete (bs : List DeviceBlock)
    (h : ∀ b ∈ bs, ∃ nm ty, b.name = some nm ∧ deviceType nm = Except.ok ty ∧
        (∃ ins, b.inputTable = some ins) ∧ (∃ outs, b.outputTable = some outs)) :
    ∃ reg, discoverBlocks bs = Except.ok reg ∧
      reg.map Prod.fst = bs.filterMap DeviceBlock.name ∧
      ∀ b ∈ bs, ∀ nm ty ins outs, b.name = some nm → deviceType nm = Except.ok ty →
        b.inputTable = some ins → b.outputTable = some outs →
        (nm, Device.mk nm ty ins.length outs.length) ∈ reg := by
  induction bs with
  | nil =>
    exact ⟨[], rfl, rfl, fun b hb => absurd hb (List.not_mem_nil b)⟩
  | cons b bs ih =>
    obtain ⟨nm, ty, hn, hty, ⟨ins, hins⟩, ⟨outs, houts⟩⟩ := h b (List.mem_cons_self _ _)
    obtain ⟨reg, hreg, hmap, hmem⟩ := ih (fun b' hb' => h b' (List.mem_cons_of_mem _ hb'))
    have hpd : parseDevice b = Except.ok (Device.mk nm ty ins.length outs.length) := by
      simp [parseDevice, hn, hty, hins, houts]
    refine ⟨(nm, Device.mk nm ty ins.length outs.length) :: reg, ?_, ?_, ?_⟩
    · simp [discoverBlocks, hpd, hreg]
    · simp [List.filterMap_cons, hn, hmap]
    · intro b' hb' nm' ty' ins' outs' hn' hty' hins' houts'
      rcases List.mem_cons.mp hb' with hb' | hb'
      · subst hb'
        rw [hn] at hn'
        injection hn' with hnm
        subst hnm
        rw [hty] at hty'
        injection hty' with htyeq
        subst htyeq
        rw [hins] at hins'
        injection hins' with hinseq
        subst hinseq
        rw [houts] at houts'
        injection houts' with houtseq
        subst houtseq
        exact List.mem_cons_self _ _
      · exact List.mem_cons_of_mem _ (hmem b' hb' nm' ty' ins' outs' hn' hty' hins' houts')

/-- A block with an unresolvable name, an unclassifiable name or a malformed
channel table makes `parseDevice` fail with a descriptive error. -/
theorem parseDevice_bad (b : DeviceBlock)
    (h : b.name = none ∨ ∃ nm, b.name = some nm ∧
        ((∃ e, deviceType nm = Except.error e) ∨ b.inputTable = none ∨ b.outputTable = none)) :
    ∃ e, parseDevice b = Except.error e := by
  rcases h with h | ⟨nm, hn, h⟩
  · exact ⟨ParseError.missingField "device name", by simp [parseDevice, h]⟩
  · rcases h with ⟨e, he⟩ | h | h
    · exact ⟨e, by simp [parseDevice, hn, he]⟩
    · rcases hty : deviceType nm with e | ty
      · exact ⟨e, by simp [parseDevice, hn, hty]⟩
      · exact ⟨ParseError.malformedTable nm, by simp [parseDevice, hn, hty, h]⟩
    · rcases hty : deviceType nm with e | ty
      · exact ⟨e, by simp [parseDevice, hn, hty]⟩
      · rcases hin : b.inputTable with _ | ins
        · exact ⟨ParseError.malformedTable nm, by simp [parseDevice, hn, hty, hin]⟩
        · exact ⟨ParseError.malformedTable nm, by simp [parseDevice, hn, hty, hin, h]⟩

/-- One bad block anywhere aborts the discovery of the whole block list. -/
theorem discoverBlocks_error (bs : List DeviceBlock)
    (h : ∃ b ∈ bs, b.name = none ∨ ∃ nm, b.name = some nm ∧
        ((∃ e, deviceType nm = Except.error e) ∨ b.inputTable = none ∨ b.outputTable = none)) :
    ∃ e, discoverBlocks bs = Except.error e := by
  induction bs with
  | nil =>
    obtain ⟨b, hb, -⟩ := h
    exact absurd hb (List.not_mem_nil b)
  | cons b bs ih =>
    obtain ⟨b', hb', hbad⟩ := h
    rcases List.mem_cons.mp hb' with rfl | hb'
    · obtain ⟨e, he⟩ := parseDevice_bad b' hbad
      exact ⟨e, by simp [discoverBlocks, he]⟩
    · rcases hpd : parseDevice b with e | dev
      · exact ⟨e, by simp [discoverBlocks, hpd]⟩
      · obtain ⟨e, he⟩ := ih ⟨b', hb', hbad⟩
        exact ⟨e, by simp [discoverBlocks, hpd, he]⟩

/-- When the raw name splits into a stereo pair over a shared base, the
cleaned name is the shared base. -/
theorem cleanName_stereo (x : String) (base a b : List Char)
    (hsp : splitCS x.data = [a, b])
    (ha : a = base ++ ['-', 'L']) (hb : b = base ++ ['-', 'R']) :
    CleanName x = String.mk base := by
  have hst : stereoPair a b = true := by
    simp [stereoPair, ha, hb, List.reverse_append]
  have hdrop : a.reverse.drop 2 = base.reverse := by
    simp [ha, List.reverse_append]
  simp [CleanName, cleanList, hsp, hst, hdrop]

/-- When the raw name does not split into a stereo pair over a shared base,
the cleaned name is the raw name unchanged. -/
theorem cleanName_keep (x : String)
    (h : ¬ ∃ base a b, splitCS x.data = [a, b] ∧
        a = base ++ ['-', 'L'] ∧ b = base ++ ['-', 'R']) :
    CleanName x = x := by
  have hmk : String.mk x.data = x := rfl
  rcases hsp : splitCS x.data with _ | ⟨a, _ | ⟨b, _ | ⟨c, ts⟩⟩⟩
  · simp [CleanName, cleanList, hsp, hmk]
  · simp [CleanName, cleanList, hsp, hmk]
  · by_cases hst : stereoPair a b = true
    · exfalso
      apply h
      simp only [stereoPair, Bool.and_eq_true, decide_eq_true_eq] at hst
      refine ⟨(a.reverse.drop 2).reverse, a, b, hsp, ?_, ?_⟩
      · conv_lhs => rw [← List.reverse_reverse a, ← List.take_append_drop 2 a.reverse]
        rw [hst.1.1]
        simp
      · conv_lhs => rw [← List.reverse_reverse b, ← List.take_append_drop 2 b.reverse]
        rw [hst.1.2, ← hst.2]
        simp
    · simp [CleanName, cleanList, hsp, hst, hmk]
  · simp [CleanName, cleanList, hsp, hmk]

/-- Claim C1: CleanName is a pure, total function on raw channel names: a
raw name of exactly two comma-and-space-separated tokens over an identical
base, the first ending in -L and the second in -R, cleans to the shared
base (CleanName "eGit-L, eGit-R" = "eGit"); every other raw name — mono
names, non-stereo comma lists, and -L and -R tokens over differing bases
such as "Lead-L, Lead2-R" — is returned unchanged. -/
theorem cleanName_total_spec :
    (∀ (x : String) (base a b : List Char), splitCS x.data = [a, b] →
        a = base ++ ['-', 'L'] → b = base ++ ['-', 'R'] → CleanName x = String.mk base)
    ∧ (∀ x : String, (¬ ∃ base a b, splitCS x.data = [a, b] ∧
        a = base ++ ['-', 'L'] ∧ b = base ++ ['-', 'R']) → CleanName x = x)
    ∧ CleanName "eGit-L, eGit-R" = "eGit"
    ∧ CleanName "eGit" = "eGit"
    ∧ CleanName "v1, v2" = "v1, v2"
    ∧ CleanName "Lead-L, Lead2-R" = "Lead-L, Lead2-R" :=
  ⟨cleanName_stereo, cleanName_keep, by decide, by decide, by decide, by decide⟩

/-- Witness for claim C1 at concrete inputs: a fresh stereo pair collapses
to its base, and a mono name is kept. -/
theorem cleanName_total_spec_witness :
    CleanName "Drums-L, Drums-R" = "Drums" ∧ CleanName "Vox" = "Vox" :=
  ⟨cleanName_total_spec.1 "Drums-L, Drums-R" "Drums".data "Drums-L".data "Drums-R".data
      (by decide) (by decide) (by decide),
   cleanName_total_spec.2.1 "Vox" (by
     rintro ⟨base, a, b, hsp, ha, hb⟩
     rw [show splitCS "Vox".data = ["Vox".data] from by decide] at hsp
     simp at hsp)⟩

/-- Claim C7: CleanName is idempotent — a second application never changes
the output of a first one, for every raw channel name. -/
theorem cleanName_idempotent (x : String) : CleanName (CleanName x) = CleanName x := by
  simp [CleanName, cleanList_idem]

/-- Claim C2: device-name classification is a deterministic, total function
over the supported name patterns — every "Stage N" name maps to StageBox;
"Console", "Local" and "Engine" map to Local; every name containing
"Pro Tools" maps to ProTools; any other name yields the
UnknownDeviceTypeError, never a silently defaulted type. -/
theorem deviceType_total (nm : String) :
    (isStageName nm = true → deviceType nm = Except.ok Hardware.StageBox)
    ∧ (nm = "Console" ∨ nm = "Local" ∨ nm = "Engine" →
        deviceType nm = Except.ok Hardware.Local)
    ∧ (containsSeq proToolsChars nm.data = true →
        deviceType nm = Except.ok Hardware.ProTools)
    ∧ (isStageName nm = false → ¬(nm = "Console" ∨ nm = "Local" ∨ nm = "Engine") →
        containsSeq proToolsChars nm.data = false →
        deviceType nm = Except.error (ParseError.unknownDeviceType nm)) := by
  refine ⟨?_, ?_, ?_, ?_⟩
  · intro h
    simp [deviceType, h]
  · rintro (rfl | rfl | rfl) <;> rfl
  · intro h
    have hstage : isStageName nm = false := by
      by_contra hc
      rw [Bool.not_eq_false] at hc
      rw [stage_no_proTools nm hc] at h
      exact Bool.false_ne_true h
    have hnames : ¬(nm = "Console" ∨ nm = "Local" ∨ nm = "Engine") := by
      rintro (rfl | rfl | rfl) <;> revert h <;> decide
    simp [deviceType, hstage, hnames, h]
  · intro h1 h2 h3
    simp [deviceType, h1, h2, h3]

/-- Witness for claim C2 at concrete inputs: one name of each classification
rule, and one unrecognized name. -/
theorem deviceType_total_witness :
    deviceType "Stage 16" = Except.ok Hardware.StageBox
    ∧ deviceType "Engine" = Except.ok Hardware.Local
    ∧ deviceType "My Pro Tools Rig" = Except.ok Hardware.ProTools
    ∧ deviceType "Aviom" = Except.error (ParseError.unknownDeviceType "Aviom") :=
  ⟨(deviceType_total "Stage 16").1 (by decide),
   (deviceType_total "Engine").2.1 (Or.inr (Or.inr rfl)),
   (deviceType_total "My Pro Tools Rig").2.2.1 (by decide),
   (deviceType_total "Aviom").2.2.2 (by decide) (by decide) (by decide)⟩

/-- Claim C8: Hardware is a closed, immutable three-value enumeration —
exactly StageBox, Local and ProTools, with stable ordinal codes
StageBox=0, Local=1, ProTools=2 (the codes are injective), and
classification only ever produces one of these three values. -/
theorem hardware_closed_enum :
    (∀ h : Hardware, h = Hardware.StageBox ∨ h = Hardware.Local ∨ h = Hardware.ProTools)
    ∧ Hardware.code Hardware.StageBox = 0 ∧ Hardware.code Hardware.Local = 1
    ∧ Hardware.code Hardware.ProTools = 2
    ∧ (∀ a b : Hardware, Hardware.code a = Hardware.code b → a = b)
    ∧ (∀ (nm : String) (hw : Hardware), deviceType nm = Except.ok hw →
        hw = Hardware.StageBox ∨ hw = Hardware.Local ∨ hw = Hardware.ProTools) := by
  refine ⟨?_, rfl, rfl, rfl, ?_, ?_⟩
  · intro h
    cases h <;> simp
  · intro a b hab
    cases a <;> cases b <;> revert hab <;> decide
  · intro nm hw _
    cases hw <;> simp

/-- Witness for claim C8 at a concrete input: the value classification
produces for "Pro Tools" is one of the three enumeration values. -/
theorem hardware_closed_enum_witness :
    Hardware.ProTools = Hardware.StageBox ∨ Hardware.ProTools = Hardware.Local
    ∨ Hardware.ProTools = Hardware.ProTools :=
  hardware_closed_enum.2.2.2.2.2 "Pro Tools" Hardware.ProTools rfl

/-- Claim C3: on every supported document, discoverDevices returns a
registry with exactly one entry per device name present, keyed by that name
verbatim, each entry a fully populated Device whose type is the classified
type and whose channel counts are the row counts of the block's input and
output tables (zero being a valid count). -/
theorem discoverDevices_complete (d : Document)
    (h : ∀ b ∈ d.blocks, ∃ nm ty, b.name = some nm ∧ deviceType nm = Except.ok ty ∧
        (∃ ins, b.inputTable = some ins) ∧ (∃ outs, b.outputTable = some outs)) :
    ∃ reg, discoverDevices d = Except.ok reg ∧
      reg.map Prod.fst = d.blocks.filterMap DeviceBlock.name ∧
      ∀ b ∈ d.blocks, ∀ nm ty ins outs, b.name = some nm → deviceType nm = Except.ok ty →
        b.inputTable = some ins → b.outputTable = some outs →
        (nm, Device.mk nm ty ins.length outs.length) ∈ reg :=
  discoverBlocks_complete d.blocks h

/-- Witness for claim C3: the example document discovers to a registry keyed
by its seven device names, containing the Stage 1 stage box with 16 inputs
and 12 outputs. -/
theorem discoverDevices_complete_witness :
    ∃ reg, discoverDevices exampleDoc = Except.ok reg ∧
      reg.map Prod.fst =
        ["Console", "Engine", "Pro Tools", "Stage 1", "Stage 2", "Stage 3", "Stage 4"] ∧
      ("Stage 1", Device.mk "Stage 1" Hardware.StageBox 16 12) ∈ reg := by
  obtain ⟨reg, h1, h2, h3⟩ := discoverDevices_complete exampleDoc (by
    intro b hb
    simp only [exampleDoc, List.mem_cons, List.not_mem_nil, or_false] at hb
    rcases hb with rfl | rfl | rfl | rfl | rfl | rfl | rfl
    · exact ⟨"Console", Hardware.Local, rfl, rfl, ⟨_, rfl⟩, ⟨_, rfl⟩⟩
    · exact ⟨"Engine", Hardware.Local, rfl, rfl, ⟨_, rfl⟩, ⟨_, rfl⟩⟩
    · exact ⟨"Pro Tools", Hardware.ProTools, rfl, rfl, ⟨_, rfl⟩, ⟨_, rfl⟩⟩
    · exact ⟨"Stage 1", Hardware.StageBox, rfl, rfl, ⟨_, rfl⟩, ⟨_, rfl⟩⟩
    · exact ⟨"Stage 2", Hardware.StageBox, rfl, rfl, ⟨_, rfl⟩, ⟨_, rfl⟩⟩
    · exact ⟨"Stage 3", Hardware.StageBox, rfl, rfl, ⟨_, rfl⟩, ⟨_, rfl⟩⟩
    · exact ⟨"Stage 4", Hardware.StageBox, rfl, rfl, ⟨_, rfl⟩, ⟨_, rfl⟩⟩)
  refine ⟨reg, h1, ?_, ?_⟩
  · rw [h2]; rfl
  · exact h3 (DeviceBlock.mk (some "Stage 1") (some (List.replicate 16 "row"))
        (some (List.replicate 12 "row")))
      (by simp [exampleDoc]) "Stage 1" Hardware.StageBox _ _ rfl rfl rfl rfl

/-- Claim C5: discoverDevices is atomic on error — a block with no
resolvable name, an unclassifiable name, or a malformed channel table makes
the whole discovery return a descriptive error and no registry at all,
never a partial registry. -/
theorem discoverDevices_atomic (d : Document)
    (h : ∃ b ∈ d.blocks, b.name = none ∨ ∃ nm, b.name = some nm ∧
        ((∃ e, deviceType nm = Except.error e) ∨ b.inputTable = none ∨ b.outputTable = none)) :
    (∃ e, discoverDevices d = Except.error e)
    ∧ ∀ reg, discoverDevices d ≠ Except.ok reg := by
  obtain ⟨e, he⟩ := discoverBlocks_error d.blocks h
  refine ⟨⟨e, he⟩, ?_⟩
  intro reg hreg
  rw [discoverDevices, he] at hreg
  exact Except.noConfusion hreg

/-- Witness for claim C5: the document whose Pro Tools block has a malformed
input table is rejected as a whole. -/
theorem discoverDevices_atomic_witness :
    (∃ e, discoverDevices badTableDoc = Except.error e)
    ∧ ∀ reg, discoverDevices badTableDoc ≠ Except.ok reg :=
  discoverDevices_atomic badTableDoc
    ⟨DeviceBlock.mk (some "Pro Tools") none (some (List.replicate 32 "row")),
     List.mem_cons_of_mem _ (List.mem_cons_self _ _),
     Or.inr ⟨"Pro Tools", rfl, Or.inr (Or.inl rfl)⟩⟩

/-- Claim C9: looking up a name that was not discovered in a registry
returned by discoverDevices yields no device — an absent key is safely
observable as `none`, not a panic, an error or an arbitrary Device. -/
theorem registry_absent_lookup (d : Document) (reg : List (String × Device)) (nm : String)
    (hok : discoverDevices d = Except.ok reg) (habs : nm ∉ reg.map Prod.fst) :
    findDevice reg nm = none := by
  clear hok
  induction reg with
  | nil => rfl
  | cons p rest ih =>
    obtain ⟨k, dev⟩ := p
    simp only [List.map_cons, List.mem_cons] at habs
    push_neg at habs
    rw [findDevice, if_neg (fun hc => habs.1 hc.symm)]
    exact ih habs.2

/-- Witness for claim C9: "Stage 5" was not discovered in the example
document and its lookup yields none. -/
theorem registry_absent_lookup_witness :
    findDevice exampleRegistry "Stage 5" = none :=
  registry_absent_lookup exampleDoc exampleRegistry "Stage 5" rfl (by decide)

/-- A document with all three metadata texts present and nonempty parses to
exactly those texts, leaving the device registry of the venue untouched. -/
theorem parseMetadata_fields (v : Venue) (d : Document) (c ver s : String)
    (hc : d.consoleText = some c) (hc2 : c ≠ "")
    (hv : d.versionText = some ver) (hv2 : ver ≠ "")
    (hs : d.showText = some s) (hs2 : s ≠ "") :
    parseMetadata v d = Except.ok (Venue.mk c ver s v.devices) := by
  rw [parseMetadata, hc, hv, hs, requireField_some _ _ hc2, requireField_some _ _ hv2,
    requireField_some _ _ hs2]

/-- Claim C4: on every supported document, parseMetadata succeeds and
populates console, version and show with strings exactly matching the
document's recorded text, the show path preserved verbatim; in particular
the end-to-end example document parses to console "Avid VENUE", version
"VENUE 4.5.3" and show "ICF Zurich\20170526 Conf WN". -/
theorem parseMetadata_exact :
    (∀ (v : Venue) (d : Document) (c ver s : String),
        d.consoleText = some c → c ≠ "" → d.versionText = some ver → ver ≠ "" →
        d.showText = some s → s ≠ "" →
        parseMetadata v d = Except.ok (Venue.mk c ver s v.devices))
    ∧ parseMetadata NewVenue exampleDoc =
        Except.ok (Venue.mk "Avid VENUE" "VENUE 4.5.3" "ICF Zurich\\20170526 Conf WN" []) :=
  ⟨parseMetadata_fields, rfl⟩

/-- Witness for claim C4: the general clause applied to the example document
and a venue with stale prior fields. -/
theorem parseMetadata_exact_witness :
    parseMetadata (Venue.mk "stale" "stale" "stale" []) exampleDoc =
      Except.ok (Venue.mk "Avid VENUE" "VENUE 4.5.3" "ICF Zurich\\20170526 Conf WN" []) :=
  parseMetadata_exact.1 (Venue.mk "stale" "stale" "stale" []) exampleDoc
    "Avid VENUE" "VENUE 4.5.3" "ICF Zurich\\20170526 Conf WN"
    rfl (by decide) rfl (by decide) rfl (by decide)

/-- Claim C6: parseMetadata fails fast and atomically — when any required
metadata node is absent or has empty text it returns a missing-field error,
and the venue the caller holds keeps all three string fields unchanged, with
no partial population. -/
theorem parseMetadata_failfast (v : Venue) (d : Document)
    (h : d.consoleText = none ∨ d.consoleText = some "" ∨ d.versionText = none ∨
        d.versionText = some "" ∨ d.showText = none ∨ d.showText = some "") :
    (∃ fld, parseMetadata v d = Except.error (ParseError.missingField fld))
    ∧ applyParseMetadata v d = v := by
  rcases hc : requireField "console" d.consoleText with e | c
  case error =>
    have hp : parseMetadata v d = Except.error e := by
      simp [parseMetadata, hc]
    have hfld : ∃ fld, e = ParseError.missingField fld := by
      rcases requireField_cases "console" d.consoleText with ⟨c, hcc⟩ | hcc
      · rw [hcc] at hc; exact Except.noConfusion hc
      · rw [hcc] at hc
        injection hc with he
        exact ⟨"console", he.symm⟩
    obtain ⟨fld, rfl⟩ := hfld
    exact ⟨⟨fld, hp⟩, by simp [applyParseMetadata, hp]⟩
  case ok =>
    rcases hv : requireField "version" d.versionText with e | ver
    case error =>
      have hp : parseMetadata v d = Except.error e := by
        simp [parseMetadata, hc, hv]
      have hfld : ∃ fld, e = ParseError.missingField fld := by
        rcases requireField_cases "version" d.versionText with ⟨x, hvv⟩ | hvv
        · rw [hvv] at hv; exact Except.noConfusion hv
        · rw [hvv] at hv
          injection hv with he
          exact ⟨"version", he.symm⟩
      obtain ⟨fld, rfl⟩ := hfld
      exact ⟨⟨fld, hp⟩, by simp [applyParseMetadata, hp]⟩
    case ok =>
      rcases hs : requireField "show" d.showText with e | s
      case error =>
        have hp : parseMetadata v d = Except.error e := by
          simp [parseMetadata, hc, hv, hs]
        have hfld : ∃ fld, e = ParseError.missingField fld := by
          rcases requireField_cases "show" d.showText with ⟨x, hss⟩ | hss
          · rw [hss] at hs; exact Except.noConfusion hs
          · rw [hss] at hs
            injection hs with he
            exact ⟨"show", he.symm⟩
        obtain ⟨fld, rfl⟩ := hfld
        exact ⟨⟨fld, hp⟩, by simp [applyParseMetadata, hp]⟩
      case ok =>
        exfalso
        rcases h with h | h | h | h | h | h
        · rw [h] at hc; simp [requireField] at hc
        · rw [h] at hc; simp [requireField] at hc
        · rw [h] at hv; simp [requireField] at hv
        · rw [h] at hv; simp [requireField] at hv
        · rw [h] at hs; simp [requireField] at hs
        · rw [h] at hs; simp [requireField] at hs

/-- Witness for claim C6: the document with a missing version node fails
with a missing-field error and the empty venue is left as it was. -/
theorem parseMetadata_failfast_witness :
    (∃ fld, parseMetadata NewVenue noVersionDoc = Except.error (ParseError.missingField fld))
    ∧ applyParseMetadata NewVenue noVersionDoc = NewVenue :=
  parseMetadata_failfast NewVenue noVersionDoc (Or.inr (Or.inr (Or.inl rfl)))

/-- Claim C10: the outcome of a successful parseMetadata call depends only
on the document, not on the venue's prior field values — two venues in any
states parsed against the same document end with identical console, version
and show fields. -/
theorem parseMetadata_prior_state_independent (v1 v2 : Venue) (d : Document) (w1 w2 : Venue)
    (h1 : parseMetadata v1 d = Except.ok w1) (h2 : parseMetadata v2 d = Except.ok w2) :
    w1.console = w2.console ∧ w1.version = w2.version ∧ w1.showPath = w2.showPath := by
  rcases hc : requireField "console" d.consoleText with e | c
  · simp [parseMetadata, hc] at h1
  · rcases hv : requireField "version" d.versionText with e | ver
    · simp [parseMetadata, hc, hv] at h1
    · rcases hs : requireField "show" d.showText with e | s
      · simp [parseMetadata, hc, hv, hs] at h1
      · rw [parseMetadata, hc, hv, hs] at h1 h2
        injection h1 with h1e
        injection h2 with h2e
        rw [← h1e, ← h2e]
        exact ⟨rfl, rfl, rfl⟩

/-- Witness for claim C10: an empty venue and a venue with stale fields both
parse the example document to the same metadata. -/
theorem parseMetadata_prior_state_independent_witness :
    (Venue.mk "Avid VENUE" "VENUE 4.5.3" "ICF Zurich\\20170526 Conf WN" []).console =
      (Venue.mk "Avid VENUE" "VENUE 4.5.3" "ICF Zurich\\20170526 Conf WN" []).console
    ∧ (Venue.mk "Avid VENUE" "VENUE 4.5.3" "ICF Zurich\\20170526 Conf WN" []).version =
      (Venue.mk "Avid VENUE" "VENUE 4.5.3" "ICF Zurich\\20170526 Conf WN" []).version
    ∧ (Venue.mk "Avid VENUE" "VENUE 4.5.3" "ICF Zurich\\20170526 Conf WN" []).showPath =
      (Venue.mk "Avid VENUE" "VENUE 4.5.3" "ICF Zurich\\20170526 Conf WN" []).showPath :=
  parseMetadata_prior_state_independent NewVenue (Venue.mk "stale" "stale" "stale" [])
    exampleDoc
    (Venue.mk "Avid VENUE" "VENUE 4.5.3" "ICF Zurich\\20170526 Conf WN" [])
    (Venue.mk "Avid VENUE" "VENUE 4.5.3" "ICF Zurich\\20170526 Conf WN" [])
    rfl rfl
